import Mathlib

/-!
Shallow embedding of the Sber Process Mining core — the heuristic miner
(`sberpm/miners/_heu_miner.py`), the cycle metric
(`sberpm/metrics/_cycle_metric.py`), the shared duration statistics
(`sberpm/metrics/_base_metric.py`), duration derivation
(`sberpm/_holder.py`) and the auto-insight classification
(`sberpm/autoinsights/_auto_insights.py`) — together with proofs of the
specification claims about these components.

The event log is modelled as a list of rows; each row carries a case id
and an activity name, mirroring the preprocessed `DataHolder.data` table.
Counts are natural numbers and all numeric values are rationals.
-/

namespace SberPM

/-- Row of the event log after preprocessing: case id and activity name
(`DataHolder.data`, columns `id_column` and `activity_column`). -/
structure Row where
  id : String
  act : String
deriving DecidableEq, Repr

/-- Case ids in order of first appearance. The pandas `groupby('id')`
traverses groups in sorted key order; no counted quantity below depends on
the traversal order of the groups, only on their contents. -/
def caseIds (rows : List Row) : List String :=
  (rows.map Row.id).dedup

/-- Activity subsequence of one case, in row order (the group of
`df.groupby('id')['a']` for one id). -/
def chainOf (rows : List Row) (i : String) : List String :=
  rows.filterMap (fun r => if r.id = i then some r.act else none)

/-- Per-case activity sequences (`data_holder.get_grouped_data(activity_column)`
aggregates each case to the tuple of its activities in row order). -/
def chains (rows : List Row) : List (List String) :=
  (caseIds rows).map (chainOf rows)

/-- Ordered pairs of activities at distance 1 within a case
(`heu_df_len_1['b'] = df.groupby('id')['a'].shift(-1)`; the rows whose
shifted value is null are dropped by the subsequent `groupby(['a','b'])`). -/
def dist1Pairs (rows : List Row) : List (String × String) :=
  (chains rows).flatMap (fun l => l.zip l.tail)

/-- Ordered pairs of activities at distance 2 within a case
(`heu_df_len_2['b'] = df.groupby('id')['a'].shift(-2)`). -/
def dist2Pairs (rows : List Row) : List (String × String) :=
  (chains rows).flatMap (fun l => l.zip l.tail.tail)

/-- Number of occurrences of the ordered pair (a,b) at distance 1: the
column named `a>b` produced by `groupby(['a','b']).count()`. The reverse
count `b<a` is looked up by the loop at lines 129-132 of `_heu_miner.py`
and left at 0 when the reverse pair is absent, which coincides with the
count of the reverse pair. -/
def countAB (rows : List Row) (a b : String) : ℕ :=
  (dist1Pairs rows).count (a, b)

/-- Dependency coefficient of a distance-1 pair: `heu_df_len_1['coeff']`
of lines 133-135 of `_heu_miner.py`, including the self-loop override. -/
def coeff1 (rows : List Row) (a b : String) : ℚ :=
  if a = b then
    (countAB rows a b : ℚ) / ((countAB rows a b : ℚ) + 1)
  else
    ((countAB rows a b : ℚ) - (countAB rows b a : ℚ)) /
      ((countAB rows a b : ℚ) + (countAB rows b a : ℚ) + 1)

/-- Example log with a single case whose trace is a, b. -/
def exLog1 : List Row := [⟨"1", "a"⟩, ⟨"1", "b"⟩]

/-- Number of occurrences of the ordered pair (a,b) at distance 2: the
column named `a>>b` of `heu_df_len_2`. The reverse count `b<<a` is filled
by the loop at lines 111-114 of `_heu_miner.py` only when the reverse pair
occurs at distance 2 and the two activities differ, and left at 0
otherwise; for distinct activities this coincides with the count of the
reverse pair, and for a self pair it is 0. -/
def count2AB (rows : List Row) (a b : String) : ℕ :=
  (dist2Pairs rows).count (a, b)

/-- Two-loop coefficient of a distance-2 pair: `heu_df_len_2['coeff']` of
lines 115-116 of `_heu_miner.py`. -/
def coeff2 (rows : List Row) (a b : String) : ℚ :=
  ((count2AB rows a b : ℚ) + (if a = b then 0 else (count2AB rows b a : ℚ))) /
    ((count2AB rows a b : ℚ) + (if a = b then 0 else (count2AB rows b a : ℚ)) + 1)

/-- Distance-1 part of `heu_df`: one entry per distinct observed distance-1
pair, carrying its dependency coefficient (lines 119-135 of
`_heu_miner.py`). -/
def dist1Table (rows : List Row) : List (String × String × ℚ) :=
  (dist1Pairs rows).dedup.map (fun p => (p.1, p.2, coeff1 rows p.1 p.2))

/-- Distance-2 pairs remaining after `_filter_func` and `dropna` (lines
137-139 and 153-158 of `_heu_miner.py`): the pair is kept when it is not
itself a distance-1 pair and its two activities differ. The reverse pair
is not consulted by `_filter_func`. -/
def dist2Kept (rows : List Row) : List (String × String) :=
  (dist2Pairs rows).dedup.filter
    (fun p => decide ((p ∉ dist1Pairs rows) ∧ p.1 ≠ p.2))

/-- Distance-2 part of `heu_df` after filtering. -/
def dist2Table (rows : List Row) : List (String × String × ℚ) :=
  (dist2Kept rows).map (fun p => (p.1, p.2, coeff2 rows p.1 p.2))

/-- Full coefficient table `heu_df` (line 141 of `_heu_miner.py`). -/
def heuTable (rows : List Row) : List (String × String × ℚ) :=
  dist1Table rows ++ dist2Table rows

/-- Coefficient-derived edges added by `HeuMiner._create_edges` for a given
threshold: the pairs of the rows of `heu_df` whose coefficient is greater
than or equal to the threshold (lines 145-151 of `_heu_miner.py`). -/
def createEdges (rows : List Row) (t : ℚ) : List (String × String) :=
  ((heuTable rows).filter (fun e => decide (t ≤ e.2.2))).map (fun e => (e.1, e.2.1))

/-- Dependency coefficient computed by the miner for an ordered pair, when
one exists: the distance-1 coefficient if the pair was observed at
distance 1, otherwise the retained two-loop coefficient. -/
def coeffOf (rows : List Row) (a b : String) : Option ℚ :=
  if (a, b) ∈ dist1Pairs rows then some (coeff1 rows a b)
  else if (a, b) ∈ dist2Pairs rows ∧ a ≠ b then some (coeff2 rows a b)
  else none

/-- Example log with a single case whose trace is a, c, b, a: the pair
(a,b) occurs at distance 2, its reverse (b,a) occurs at distance 1, and
(a,b) itself never occurs at distance 1. -/
def exLog3 : List Row := [⟨"1", "a"⟩, ⟨"1", "c"⟩, ⟨"1", "b"⟩, ⟨"1", "a"⟩]

/-- Lookup in an association list modelling a Python dict with
natural-number values (`d[k]` / `d.get(k)`). -/
def lookupK {K : Type} [DecidableEq K] (m : List (K × ℕ)) (k : K) : Option ℕ :=
  match m with
  | [] => none
  | (k₁, v) :: rest => if k₁ = k then some v else lookupK rest k

/-- Add v to the entry of key k, inserting the entry with value v when the
key is absent. For v = 1 this is the `try: d[k] += 1` / `except KeyError:
d[k] = 1` pattern of `CycleMetric.find`; for general v it is one step of
`Counter` addition (every added count there is positive, so the dropping
of non-positive entries by `Counter.__iadd__` never fires). -/
def bumpBy {K : Type} [DecidableEq K] (m : List (K × ℕ)) (k : K) (v : ℕ) :
    List (K × ℕ) :=
  match m with
  | [] => [(k, v)]
  | (k₁, v₁) :: rest =>
    if k₁ = k then (k₁, v₁ + v) :: rest else (k₁, v₁) :: bumpBy rest k v

/-- Apply a list of keyed additions to the dict in order. -/
def foldBump {K : Type} [DecidableEq K] (m : List (K × ℕ)) (ds : List (K × ℕ)) :
    List (K × ℕ) :=
  ds.foldl (fun acc e => bumpBy acc e.1 e.2) m

/-- Total weight a list of keyed additions gives to one key. -/
def wsum {K : Type} [DecidableEq K] (ds : List (K × ℕ)) (k : K) : ℕ :=
  match ds with
  | [] => 0
  | (k₁, v₁) :: rest => (if k₁ = k then v₁ else 0) + wsum rest k

/-- All indices of an element in a chain
(`CycleMetric._get_indices_of_cyclic_element`). -/
def indicesOf (chain : List String) (e : String) : List ℕ :=
  (chain.enum.filter (fun p => decide (p.2 = e))).map Prod.fst

/-- Distance between the first and the last occurrence of an element
(`CycleMetric._get_length_of_cycle`; only evaluated on elements that occur
at least twice). -/
def lengthOfCycle (chain : List String) (e : String) : ℕ :=
  (indicesOf chain e).getLastD 0 - (indicesOf chain e).headD 0

/-- Selection predicate of `CycleMetric._count_chain`: an element enters
`doubles` when its occurrence count exceeds 1 and, when a non-zero cycle
length is configured, when its first-to-last distance equals that length.
Python truthiness (`if self._cycle_length:`) treats both None and 0 as
"no length filter". -/
def isCyclicIn (cl : Option ℕ) (chain : List String) (e : String) : Bool :=
  decide (1 < chain.count e) &&
    match cl with
    | some (n + 1) => decide (lengthOfCycle chain e = n + 1)
    | _ => true

/-- Result of `CycleMetric._count_chain`: each qualifying element paired
with its total occurrence count in the chain. -/
def doubles (cl : Option ℕ) (chain : List String) : List (String × ℕ) :=
  (chain.dedup.filter (isCyclicIn cl chain)).map (fun e => (e, chain.count e))

/-- The `cyclic_nodes` Counter after the main loop of `CycleMetric.find`
(line 72 of `_cycle_metric.py`); every count added by `Counter.__iadd__`
is at least 2, so no entry is ever dropped as non-positive. -/
def cyclicNodesCounter (rows : List Row) (cl : Option ℕ) : List (String × ℕ) :=
  (chains rows).foldl (fun m ch => foldBump m (doubles cl ch)) []

/-- Unique activities of the log (`DataHolder.get_unique_activities`). -/
def uniqueActivities (rows : List Row) : List String :=
  (rows.map Row.act).dedup

/-- Zero back-fill loop of `CycleMetric.find` (lines 74-76 of
`_cycle_metric.py`): every unique activity not already a key is added with
count 0. -/
def backfill (m : List (String × ℕ)) (acts : List String) : List (String × ℕ) :=
  acts.foldl (fun acc e => if lookupK acc e = none then acc ++ [(e, 0)] else acc) m

/-- Node cycle counts returned by `CycleMetric.find`. -/
def nodeCycleCounts (rows : List Row) (cl : Option ℕ) : List (String × ℕ) :=
  backfill (cyclicNodesCounter rows cl) (uniqueActivities rows)

/-- Keys of the `cyclic_edges` dict before the main loop (lines 60-61 of
`_cycle_metric.py`): the whole activity column zipped with its shift by
-1. The shift is NOT grouped by case id, so consecutive rows of different
cases also produce a key, and the last row produces a key whose second
component is missing (the NaN brought in by `shift(-1)`). -/
def initEdgeKeys (rows : List Row) : List (String × Option String) :=
  ((rows.map Row.act).zip (((rows.map Row.act).tail.map some) ++ [none])).dedup

/-- Transitions incremented by the main loop of `CycleMetric.find`: for
every chain, for every cyclic element, for every occurrence index after
the first, the pair of the previous and the current chain entries. -/
def incPairsChain (cl : Option ℕ) (ch : List String) : List (String × String) :=
  ((doubles cl ch).map Prod.fst).flatMap
    (fun e => ((indicesOf ch e).tail).map (fun i => (ch.getD (i - 1) "", ch.getD i "")))

/-- All cyclic-transition increments over the whole log. -/
def incPairs (rows : List Row) (cl : Option ℕ) : List (String × String) :=
  (chains rows).flatMap (incPairsChain cl)

/-- Edge cycle counts returned by `CycleMetric.find`: the initial keys at
0, then one increment per detected cyclic transition, inserting the key at
value 1 when it is absent (the KeyError branch of lines 68-71). -/
def edgeCycleCounts (rows : List Row) (cl : Option ℕ) :
    List ((String × Option String) × ℕ) :=
  foldBump ((initEdgeKeys rows).map (fun k => (k, 0)))
    ((incPairs rows cl).map (fun p => ((p.1, some p.2), 1)))

/-- Example log for C4 with one case a, b, a and one case b. -/
def exLog4 : List Row := [⟨"1", "a"⟩, ⟨"1", "b"⟩, ⟨"1", "a"⟩, ⟨"2", "b"⟩]

/-- Example log for C5 with two one-activity cases: A in case 1, B in
case 2. No two activities are ever consecutive within a case, yet the
ungrouped shift pairs A with B and B with a missing value. -/
def exLog5 : List Row := [⟨"1", "A"⟩, ⟨"2", "B"⟩]

/-- Seconds-per-unit factor chosen by `BaseMetric.__init__` (lines 41-52
of `_base_metric.py`); an unknown unit raises AttributeError. -/
def parseTimeUnit (u : String) : Except String ℚ :=
  if u = "week" ∨ u = "w" then .ok 604800
  else if u = "day" ∨ u = "d" then .ok 86400
  else if u = "hour" ∨ u = "h" then .ok 3600
  else if u = "minute" ∨ u = "m" then .ok 60
  else if u = "second" ∨ u = "s" then .ok 1
  else .error "AttributeError: unknown time unit"

/-- Minimum of a group of values, as `pandas.GroupBy.min` computes it on a
nonempty group. -/
def listMin : List ℚ → ℚ
  | [] => 0
  | x :: rest => rest.foldl min x

/-- Maximum of a group of values (`pandas.GroupBy.max`). -/
def listMax : List ℚ → ℚ
  | [] => 0
  | x :: rest => rest.foldl max x

/-- Mean of a group of values (`pandas.GroupBy.mean`). -/
def listMean (xs : List ℚ) : ℚ := xs.sum / xs.length

/-- Median of a group of values as pandas computes it: the middle element
of the sorted values for odd length, the average of the two middle
elements for even length. -/
def listMedian (xs : List ℚ) : ℚ :=
  if (List.insertionSort (· ≤ ·) xs).length % 2 = 1 then
    (List.insertionSort (· ≤ ·) xs).getD ((List.insertionSort (· ≤ ·) xs).length / 2) 0
  else
    ((List.insertionSort (· ≤ ·) xs).getD
        ((List.insertionSort (· ≤ ·) xs).length / 2 - 1) 0 +
      (List.insertionSort (· ≤ ·) xs).getD
        ((List.insertionSort (· ≤ ·) xs).length / 2) 0) / 2

/-- Population variance of a group (`var(ddof=0)`). -/
def popVar (xs : List ℚ) : ℚ :=
  (xs.map (fun x => (x - listMean xs) ^ 2)).sum / xs.length

/-- Duration total of `BaseMetric._sum_by`: the sum over the raw seconds
divided by the unit factor. -/
def sumBy (xs : List ℚ) (u : ℚ) : ℚ := xs.sum / u

/-- Duration minimum of `BaseMetric._min_by`. -/
def minBy (xs : List ℚ) (u : ℚ) : ℚ := listMin xs / u

/-- Duration maximum of `BaseMetric._max_by`. -/
def maxBy (xs : List ℚ) (u : ℚ) : ℚ := listMax xs / u

/-- Duration mean of `BaseMetric._mean_by`. -/
def meanBy (xs : List ℚ) (u : ℚ) : ℚ := listMean xs / u

/-- Duration median of `BaseMetric._median_by`. -/
def medianBy (xs : List ℚ) (u : ℚ) : ℚ := listMedian xs / u

/-- Duration variance of `BaseMetric._variance_by`: the population
variance of the raw seconds divided ONCE by the unit factor (line 255 of
`_base_metric.py`). -/
def varianceBy (xs : List ℚ) (u : ℚ) : ℚ := popVar xs / u

/-- Duration values converted from seconds into the chosen unit: this is
the data the specification says every statistic is computed over. -/
def convert (xs : List ℚ) (u : ℚ) : List ℚ := xs.map (fun x => x / u)

/-- DataHolder state relevant to duration derivation: per-row case ids,
the optional timestamp columns (values in seconds) and the optional
duration column (seconds, possibly null per row). -/
structure DHolder where
  ids : List String
  startCol : Option (List ℚ)
  endCol : Option (List ℚ)
  durCol : Option (List (Option ℚ))
deriving DecidableEq, Repr

/-- Duration from a start-timestamp column only: each row against the next
row's same timestamp field, null when the next row belongs to a different
case or does not exist (the `shift(-1)` branch of
`check_or_calc_duration`, lines 466-470 and 476-478 of `_holder.py`). -/
def durFromStart : List (String × ℚ) → List (Option ℚ)
  | [] => []
  | [_] => [none]
  | (i₁, t₁) :: (i₂, t₂) :: rest =>
    (if i₂ = i₁ then some (t₂ - t₁) else none) :: durFromStart ((i₂, t₂) :: rest)

/-- Helper for the end-timestamp-only branch: each row against the
previous row carried along. -/
def durFromEndAux (prev : String × ℚ) : List (String × ℚ) → List (Option ℚ)
  | [] => []
  | (i, t) :: rest =>
    (if prev.1 = i then some (t - prev.2) else none) :: durFromEndAux (i, t) rest

/-- Duration from an end-timestamp column only: each row against the
previous row's same timestamp field, null for the first row or on a case
change (the `shift(1)` branch of `check_or_calc_duration`, lines 471-478
of `_holder.py`). -/
def durFromEnd : List (String × ℚ) → List (Option ℚ)
  | [] => []
  | (i, t) :: rest => none :: durFromEndAux (i, t) rest

/-- Translation of `DataHolder.check_or_calc_duration` (lines 450-483 of `_holder.py`):
keeps an existing duration column, derives one from the available
timestamp columns, and raises RuntimeError when neither timestamp column
is set. -/
def checkOrCalcDuration (h : DHolder) : Except String DHolder :=
  match h.durCol with
  | some _ => .ok h
  | none =>
    match h.startCol, h.endCol with
    | none, none =>
      .error "RuntimeError: Cannot calculate time difference"
    | some s, some e =>
      .ok { h with durCol := some ((s.zip e).map (fun p => some (p.2 - p.1))) }
    | some s, none => .ok { h with durCol := some (durFromStart (h.ids.zip s)) }
    | none, some e => .ok { h with durCol := some (durFromEnd (h.ids.zip e)) }

/-- Translation of `BaseMetric.__init__` (lines 38-52 of `_base_metric.py`): check or
derive the duration column, then resolve the time unit. -/
def baseMetricInit (h : DHolder) (timeUnit : String) : Except String (DHolder × ℚ) :=
  match checkOrCalcDuration h with
  | .error e => .error e
  | .ok h₂ =>
    match parseTimeUnit timeUnit with
    | .error e => .error e
    | .ok u => .ok (h₂, u)

/-- Cache state of one metric instance: the `self.metrics` field (None
until the first `apply`) together with the number of times the metric
table has actually been computed. -/
structure CacheState (T : Type) where
  metrics : Option T
  computeCount : ℕ

/-- Fresh instance state after `__init__` (`self.metrics = None`). -/
def initCache (T : Type) : CacheState T := ⟨none, 0⟩

/-- The `apply` of ActivityMetric, IdMetric and UserMetric: compute and
store the table only when `self.metrics is None`, then return the stored
table itself (lines 52-78 of `_activity_metric.py`, 44-72 of
`_id_metric.py`, 48-72 of `_user_metric.py`). The body of the computation
is irrelevant to the caching discipline and is a parameter. -/
def applyCached {T : Type} (compute : Unit → T) (s : CacheState T) : T × CacheState T :=
  match s.metrics with
  | none =>
    let t := compute ()
    (t, ⟨some t, s.computeCount + 1⟩)
  | some t => (t, s)

/-- The `apply` of TransitionMetric: the cached table is computed at most
once, and the returned value is a deterministic transformation (rename,
sort by total count, reindex) of the cached table (lines 71-91 of
`_transition_metric.py`). -/
def applyTransformed {T R : Type} (compute : Unit → T) (transform : T → R)
    (s : CacheState T) : R × CacheState T :=
  match s.metrics with
  | none =>
    let t := compute ()
    (transform t, ⟨some t, s.computeCount + 1⟩)
  | some t => (transform t, s)

/-- Python argument passed to `AutoInsights.__init__`: either an actual
DataHolder or a value of some other exact type, identified by its type
name for the error message (`type(data_holder) == DataHolder`). -/
inductive PyArg where
  | holder (h : DHolder)
  | other (typeName : String)

/-- Insight state of a freshly constructed `AutoInsights` instance: the
node and edge insight tables, which `describe_nodes` / `describe_edges`
return as-is. -/
structure AIState where
  nodeInsights : Option (List (String × List ℤ × ℤ))
  edgeInsights : Option (List (String × List ℤ × ℤ))
deriving Repr

/-- Translation of `AutoInsights.__init__` (lines 45-68 of `_auto_insights.py`): an exact
type check on the argument (TypeError otherwise), then construction of an
ActivityMetric and of a TransitionMetric — each beginning with
`BaseMetric.__init__`, which checks or derives the duration column and can
raise — and initialization of both insight tables to None. -/
def autoInsightsInit (arg : PyArg) (timeUnit : String) : Except String AIState :=
  match arg with
  | .other tn =>
    .error ("TypeError: data_holder must be of type DataHolder, but got: " ++ tn)
  | .holder h =>
    match baseMetricInit h timeUnit with
    | .error e => .error e
    | .ok (h₂, _) =>
      match baseMetricInit h₂ timeUnit with
      | .error e => .error e
      | .ok _ => .ok ⟨none, none⟩

/-- Quantile of a column as `pandas.quantile` computes it with the default
linear interpolation (`AutoInsights._get_quantilies`, line 285 of
`_auto_insights.py`): for sorted values s of length n and quantile q, with
h = q*(n-1) and i = ⌊h⌋, the value is s\[i\] + (h - i) * (s\[i+1\] - s\[i\]);
when i is the last index the fractional part is 0 and the second term
vanishes. -/
def quantile (xs : List ℚ) (q : ℚ) : ℚ :=
  let s := List.insertionSort (· ≤ ·) xs
  let h : ℚ := q * ((s.length : ℚ) - 1)
  let i : ℕ := ⌊h⌋.toNat
  s.getD i 0 + (h - (i : ℚ)) * (s.getD (i + 1) (s.getD i 0) - s.getD i 0)

/-- One node/edge statistics table consumed by `_get_insight`: one row per
grouping key (the first column), each row carrying the numeric metric
values of the remaining columns `stats.columns[1:]`. -/
structure StatsTable where
  rows : List (String × List ℚ)

/-- Values of one metrics column across all rows (`stats[column]`). -/
def colVals (t : StatsTable) (j : ℕ) : List ℚ :=
  t.rows.map (fun r => r.2.getD j 0)

/-- Translation of `AutoInsights._insight_by_quantile` (lines 295-301 of
`_auto_insights.py`): -1 strictly below the low threshold, +1 strictly
above the top threshold, 0 otherwise. -/
def insightByQuantile (x thMin thTop : ℚ) : ℤ :=
  if x < thMin then -1 else if thTop < x then 1 else 0

/-- Translation of `AutoInsights._sign` (lines 287-293 of `_auto_insights.py`). -/
def signZ (x : ℤ) : ℤ :=
  if 0 < x then 1 else if x < 0 then -1 else 0

/-- Per-column insight signs of one row: the column loop of `_get_insight`
(lines 171-173 of `_auto_insights.py`), with the per-column quantile
thresholds of `_get_quantilies`. -/
def insightRow (t : StatsTable) (qMin qTop : ℚ) (vals : List ℚ) : List ℤ :=
  (List.range vals.length).map (fun j =>
    insightByQuantile (vals.getD j 0) (quantile (colVals t j) qMin)
      (quantile (colVals t j) qTop))

/-- Translation of `AutoInsights._get_insight` (lines 167-175 of `_auto_insights.py`):
for each row, the per-column signs and the aggregated `insights` value —
`_sum_insight` sums the per-column signs of the row (skipping the key
column) and takes the sign of the sum. -/
def getInsight (t : StatsTable) (qMin qTop : ℚ) : List (String × List ℤ × ℤ) :=
  t.rows.map (fun r =>
    (r.1, insightRow t qMin qTop r.2, signZ (insightRow t qMin qTop r.2).sum))

/-- Example statistics table for C6: two rows, one metrics column. -/
def exStats : StatsTable := ⟨[("n1", [1]), ("n2", [2])]⟩

/-- C1: for every ordered pair (a,b) observed at distance 1 in the log,
with c1 the number of (a,b) adjacencies and c2 the number of (b,a)
adjacencies (0 if unseen), the dependency coefficient equals c1/(c1+1)
when a = b and (c1-c2)/(c1+c2+1) when a is not b, and in both cases the
coefficient lies strictly between -1 and 1. -/
theorem heu_coeff1_formula_and_bounds (rows : List Row) (a b : String)
    (hobs : (a, b) ∈ dist1Pairs rows) :
    (coeff1 rows a b =
      if a = b then (countAB rows a b : ℚ) / ((countAB rows a b : ℚ) + 1)
      else ((countAB rows a b : ℚ) - (countAB rows b a : ℚ)) /
        ((countAB rows a b : ℚ) + (countAB rows b a : ℚ) + 1)) ∧
    -1 < coeff1 rows a b ∧ coeff1 rows a b < 1 := by
  have h1 : (0 : ℚ) ≤ (countAB rows a b : ℚ) := by positivity
  have h2 : (0 : ℚ) ≤ (countAB rows b a : ℚ) := by positivity
  refine ⟨rfl, ?_, ?_⟩
  · unfold coeff1
    split
    · have hd : (0 : ℚ) < (countAB rows a b : ℚ) + 1 := by linarith
      have hnn := div_nonneg h1 (le_of_lt hd)
      linarith
    · have hd : (0 : ℚ) < (countAB rows a b : ℚ) + (countAB rows b a : ℚ) + 1 := by
        linarith
      rw [lt_div_iff₀ hd]
      linarith
  · unfold coeff1
    split
    · have hd : (0 : ℚ) < (countAB rows a b : ℚ) + 1 := by linarith
      rw [div_lt_one hd]
      linarith
    · have hd : (0 : ℚ) < (countAB rows a b : ℚ) + (countAB rows b a : ℚ) + 1 := by
        linarith
      rw [div_lt_one hd]
      linarith

/-- Witness for C1 at the concrete log `exLog1`. -/
theorem heu_coeff1_formula_and_bounds_witness :
    ("a", "b") ∈ dist1Pairs exLog1 ∧
    ((coeff1 exLog1 "a" "b" =
      if "a" = "b" then (countAB exLog1 "a" "b" : ℚ) / ((countAB exLog1 "a" "b" : ℚ) + 1)
      else ((countAB exLog1 "a" "b" : ℚ) - (countAB exLog1 "b" "a" : ℚ)) /
        ((countAB exLog1 "a" "b" : ℚ) + (countAB exLog1 "b" "a" : ℚ) + 1)) ∧
    -1 < coeff1 exLog1 "a" "b" ∧ coeff1 exLog1 "a" "b" < 1) :=
  ⟨by decide, heu_coeff1_formula_and_bounds exLog1 "a" "b" (by decide)⟩

theorem mem_dist1Table (rows : List Row) (a b : String) (c : ℚ) :
    (a, b, c) ∈ dist1Table rows ↔
      (a, b) ∈ dist1Pairs rows ∧ c = coeff1 rows a b := by
  unfold dist1Table
  simp only [List.mem_map, List.mem_dedup]
  constructor
  · rintro ⟨⟨pa, pb⟩, hp, heq⟩
    simp only [Prod.mk.injEq] at heq
    obtain ⟨rfl, rfl, rfl⟩ := heq
    exact ⟨hp, rfl⟩
  · rintro ⟨hmem, rfl⟩
    exact ⟨(a, b), hmem, rfl⟩

theorem mem_dist2Kept (rows : List Row) (a b : String) :
    (a, b) ∈ dist2Kept rows ↔
      (a, b) ∈ dist2Pairs rows ∧ (a, b) ∉ dist1Pairs rows ∧ a ≠ b := by
  unfold dist2Kept
  simp [List.mem_filter, List.mem_dedup, decide_eq_true_eq, and_assoc]

theorem mem_dist2Table (rows : List Row) (a b : String) (c : ℚ) :
    (a, b, c) ∈ dist2Table rows ↔
      ((a, b) ∈ dist2Pairs rows ∧ (a, b) ∉ dist1Pairs rows ∧ a ≠ b) ∧
        c = coeff2 rows a b := by
  unfold dist2Table
  simp only [List.mem_map]
  constructor
  · rintro ⟨⟨pa, pb⟩, hp, heq⟩
    simp only [Prod.mk.injEq] at heq
    obtain ⟨rfl, rfl, rfl⟩ := heq
    exact ⟨(mem_dist2Kept rows pa pb).mp hp, rfl⟩
  · rintro ⟨hmem, rfl⟩
    exact ⟨(a, b), (mem_dist2Kept rows a b).mpr hmem, rfl⟩

theorem mem_heuTable (rows : List Row) (a b : String) (c : ℚ) :
    (a, b, c) ∈ heuTable rows ↔ coeffOf rows a b = some c := by
  unfold heuTable coeffOf
  rw [List.mem_append, mem_dist1Table, mem_dist2Table]
  by_cases h1 : (a, b) ∈ dist1Pairs rows
  · simp [h1, eq_comm]
  · by_cases h2 : (a, b) ∈ dist2Pairs rows ∧ a ≠ b
    · simp [h1, h2.1, h2.2, eq_comm]
    · rw [if_neg h1, if_neg h2]
      constructor
      · rintro (⟨hmem, -⟩ | ⟨⟨hd2, -, hne⟩, -⟩)
        · exact absurd hmem h1
        · exact absurd ⟨hd2, hne⟩ h2
      · intro h
        exact Option.noConfusion h

theorem mem_createEdges (rows : List Row) (t : ℚ) (a b : String) :
    (a, b) ∈ createEdges rows t ↔
      ∃ c, coeffOf rows a b = some c ∧ t ≤ c := by
  unfold createEdges
  simp only [List.mem_map, List.mem_filter, decide_eq_true_eq]
  constructor
  · rintro ⟨⟨x, y, c⟩, ⟨hmem, ht⟩, heq⟩
    simp only [Prod.mk.injEq] at heq
    obtain ⟨rfl, rfl⟩ := heq
    exact ⟨c, (mem_heuTable rows x y c).mp hmem, ht⟩
  · rintro ⟨c, hc, ht⟩
    exact ⟨(a, b, c), ⟨(mem_heuTable rows a b c).mpr hc, ht⟩, rfl⟩

/-- C2: an ordered pair for which the miner computed a dependency
coefficient is a coefficient-derived edge of the graph exactly when that
coefficient is greater than or equal to the threshold; a pair with no
coefficient yields no edge; and for thresholds t1 at most t2, every
coefficient-derived edge at t2 is also an edge at t1. -/
theorem heu_edges_iff_threshold (rows : List Row) (a b : String) (t1 t2 : ℚ) :
    (∀ c, coeffOf rows a b = some c →
      ((a, b) ∈ createEdges rows t1 ↔ t1 ≤ c)) ∧
    (coeffOf rows a b = none → (a, b) ∉ createEdges rows t1) ∧
    (t1 ≤ t2 → ∀ x y, (x, y) ∈ createEdges rows t2 → (x, y) ∈ createEdges rows t1) := by
  refine ⟨?_, ?_, ?_⟩
  · intro c hc
    rw [mem_createEdges]
    constructor
    · rintro ⟨d, hd, htd⟩
      rw [hc] at hd
      cases hd
      exact htd
    · intro ht
      exact ⟨c, hc, ht⟩
  · intro hnone hmem
    obtain ⟨c, hc, -⟩ := (mem_createEdges rows t1 a b).mp hmem
    rw [hnone] at hc
    cases hc
  · intro h12 x y hmem
    obtain ⟨c, hc, htc⟩ := (mem_createEdges rows t2 x y).mp hmem
    exact (mem_createEdges rows t1 x y).mpr ⟨c, hc, le_trans h12 htc⟩

/-- Witness for C2 at the concrete log `exLog1`, whose only pair has
coefficient 1/2. -/
theorem heu_edges_iff_threshold_witness :
    coeffOf exLog1 "a" "b" = some (1 / 2 : ℚ) ∧
    ("a", "b") ∈ createEdges exLog1 (1 / 2 : ℚ) := by
  have h1 : countAB exLog1 "a" "b" = 1 := by decide
  have h2 : countAB exLog1 "b" "a" = 0 := by decide
  have hm : ("a", "b") ∈ dist1Pairs exLog1 := by decide
  have hc : coeffOf exLog1 "a" "b" = some (1 / 2 : ℚ) := by
    unfold coeffOf coeff1
    rw [if_pos hm, if_neg (by decide : ¬ ("a" = "b")), h1, h2]
    norm_num
  exact ⟨hc, ((heu_edges_iff_threshold exLog1 "a" "b" (1 / 2) (1 / 2)).1
    (1 / 2) hc).mpr le_rfl⟩

/-- Counterexample to C3 as stated: in `exLog3` the distance-2 entry
(a,b) is retained by `_filter_func` although the reverse pair (b,a) is a
distance-1 pair — the filter never consults the reverse pair. -/
theorem heu_two_loop_filter_counterexample :
    ("a", "b") ∈ dist2Kept exLog3 ∧ ("b", "a") ∈ dist1Pairs exLog3 := by
  decide

/-- C3 amended: a distance-2 entry (a,b) is retained exactly when (a,b)
itself is not a distance-1 pair and a differs from b (the reverse pair is
not consulted), and every retained entry carries the coefficient
(a>>b + b<<a) / (a>>b + b<<a + 1) built from the distance-2 counts of the
pair and of its reverse. -/
theorem heu_two_loop_coeff_amended (rows : List Row) (a b : String) :
    ((a, b) ∈ dist2Kept rows ↔
      (a, b) ∈ dist2Pairs rows ∧ (a, b) ∉ dist1Pairs rows ∧ a ≠ b) ∧
    ((a, b) ∈ dist2Kept rows →
      coeff2 rows a b =
        ((count2AB rows a b : ℚ) + (count2AB rows b a : ℚ)) /
          ((count2AB rows a b : ℚ) + (count2AB rows b a : ℚ) + 1)) := by
  refine ⟨mem_dist2Kept rows a b, ?_⟩
  intro hk
  obtain ⟨-, -, hne⟩ := (mem_dist2Kept rows a b).mp hk
  unfold coeff2
  rw [if_neg hne]

/-- Witness for the amended C3 at the concrete log `exLog3`. -/
theorem heu_two_loop_coeff_amended_witness :
    ("a", "b") ∈ dist2Kept exLog3 ∧
    coeff2 exLog3 "a" "b" =
      ((count2AB exLog3 "a" "b" : ℚ) + (count2AB exLog3 "b" "a" : ℚ)) /
        ((count2AB exLog3 "a" "b" : ℚ) + (count2AB exLog3 "b" "a" : ℚ) + 1) :=
  ⟨by decide, (heu_two_loop_coeff_amended exLog3 "a" "b").2 (by decide)⟩

theorem lookupK_bumpBy_self {K : Type} [DecidableEq K]
    (m : List (K × ℕ)) (k : K) (v : ℕ) :
    lookupK (bumpBy m k v) k = some ((lookupK m k).getD 0 + v) := by
  induction m with
  | nil => simp [bumpBy, lookupK]
  | cons e rest ih =>
    obtain ⟨k₁, v₁⟩ := e
    by_cases h : k₁ = k <;> simp [bumpBy, lookupK, h, ih]

theorem lookupK_bumpBy_ne {K : Type} [DecidableEq K]
    (m : List (K × ℕ)) (k j : K) (v : ℕ) (h : j ≠ k) :
    lookupK (bumpBy m k v) j = lookupK m j := by
  have hkj : ¬ k = j := fun he => h he.symm
  induction m with
  | nil => simp [bumpBy, lookupK, hkj]
  | cons e rest ih =>
    obtain ⟨k₁, v₁⟩ := e
    by_cases h1 : k₁ = k
    · subst h1
      simp [bumpBy, lookupK, hkj]
    · simp [bumpBy, lookupK, h1, ih]

theorem lookupK_append {K : Type} [DecidableEq K] (m₁ m₂ : List (K × ℕ)) (k : K) :
    lookupK (m₁ ++ m₂) k =
      match lookupK m₁ k with
      | some v => some v
      | none => lookupK m₂ k := by
  induction m₁ with
  | nil => simp [lookupK]
  | cons e rest ih =>
    obtain ⟨k₁, v₁⟩ := e
    by_cases h : k₁ = k <;> simp [lookupK, h, ih]

theorem lookupK_foldBump {K : Type} [DecidableEq K]
    (ds : List (K × ℕ)) (m : List (K × ℕ)) (k : K) :
    lookupK (foldBump m ds) k =
      if (lookupK m k).isSome ∨ k ∈ ds.map Prod.fst
      then some ((lookupK m k).getD 0 + wsum ds k)
      else none := by
  induction ds generalizing m with
  | nil =>
    cases h : lookupK m k <;> simp [foldBump, wsum, h]
  | cons d rest ih =>
    obtain ⟨k₁, v₁⟩ := d
    show lookupK (foldBump (bumpBy m k₁ v₁) rest) k = _
    rw [ih]
    by_cases hk : k₁ = k
    · subst hk
      rw [lookupK_bumpBy_self]
      have hw : wsum ((k₁, v₁) :: rest) k₁ = v₁ + wsum rest k₁ := by
        simp [wsum]
      have hmem : k₁ ∈ ((k₁, v₁) :: rest).map Prod.fst := by simp
      rw [hw, if_pos (Or.inr hmem)]
      simp [Nat.add_assoc]
    · have hne : k ≠ k₁ := fun he => hk he.symm
      rw [lookupK_bumpBy_ne m k₁ k v₁ hne]
      have hw : wsum ((k₁, v₁) :: rest) k = wsum rest k := by
        simp [wsum, hk]
      rw [hw]
      simp only [List.map_cons]
      have hcond : ((lookupK m k).isSome = true ∨ k ∈ k₁ :: List.map Prod.fst rest) ↔
          ((lookupK m k).isSome = true ∨ k ∈ List.map Prod.fst rest) := by
        simp [List.mem_cons, hne]
      rw [if_congr hcond rfl rfl]

theorem mem_of_mem_chains (rows : List Row) (ch : List String) (x : String)
    (hch : ch ∈ chains rows) (hx : x ∈ ch) : x ∈ uniqueActivities rows := by
  unfold chains at hch
  obtain ⟨i, -, rfl⟩ := List.mem_map.mp hch
  unfold chainOf at hx
  obtain ⟨r, hr, hsome⟩ := List.mem_filterMap.mp hx
  unfold uniqueActivities
  rw [List.mem_dedup]
  by_cases h : r.id = i
  · rw [if_pos h] at hsome
    cases hsome
    exact List.mem_map_of_mem Row.act hr
  · rw [if_neg h] at hsome
    exact Option.noConfusion hsome

theorem lookupK_backfill (acts : List String) (m : List (String × ℕ)) (k : String) :
    lookupK (backfill m acts) k =
      match lookupK m k with
      | some v => some v
      | none => if k ∈ acts then some 0 else none := by
  induction acts generalizing m with
  | nil => cases h : lookupK m k <;> simp [backfill, h]
  | cons a rest ih =>
    show lookupK (backfill (if lookupK m a = none then m ++ [(a, 0)] else m) rest) k = _
    by_cases ha : lookupK m a = none
    · rw [if_pos ha, ih, lookupK_append]
      cases h : lookupK m k with
      | some v => simp
      | none =>
        by_cases hak : a = k
        · subst hak
          simp [lookupK, List.mem_cons]
        · have hka : ¬ (k = a) := fun he => hak he.symm
          simp only [lookupK, if_neg hak]
          simp [List.mem_cons, hka]
    · rw [if_neg ha, ih]
      cases h : lookupK m k with
      | some v => rfl
      | none =>
        by_cases hak : a = k
        · subst hak
          exact absurd h ha
        · have hka : ¬ (k = a) := fun he => hak he.symm
          simp [List.mem_cons, hka]

theorem cyclicNodesCounter_eq_foldBump (rows : List Row) (cl : Option ℕ) :
    cyclicNodesCounter rows cl = foldBump [] ((chains rows).flatMap (doubles cl)) := by
  unfold cyclicNodesCounter
  suffices h : ∀ (chs : List (List String)) (m : List (String × ℕ)),
      chs.foldl (fun m ch => foldBump m (doubles cl ch)) m =
        foldBump m (chs.flatMap (doubles cl)) by
    exact h (chains rows) []
  intro chs
  induction chs with
  | nil => intro m; rfl
  | cons ch rest ih =>
    intro m
    show rest.foldl _ (foldBump m (doubles cl ch)) = _
    rw [ih (foldBump m (doubles cl ch))]
    unfold foldBump
    rw [List.flatMap_cons, List.foldl_append]

theorem mem_doubles_keys (cl : Option ℕ) (ch : List String) (e : String) :
    e ∈ (doubles cl ch).map Prod.fst ↔ e ∈ ch ∧ isCyclicIn cl ch e = true := by
  unfold doubles
  rw [List.map_map]
  constructor
  · intro h
    obtain ⟨x, hx, hex⟩ := List.mem_map.mp h
    obtain ⟨hxd, hxc⟩ := List.mem_filter.mp hx
    cases hex
    exact ⟨List.mem_dedup.mp hxd, hxc⟩
  · intro ⟨h1, h2⟩
    exact List.mem_map.mpr ⟨e, List.mem_filter.mpr ⟨List.mem_dedup.mpr h1, h2⟩, rfl⟩

/-- C4: the key set of the node-cycle-count map returned by
`CycleMetric.find` equals exactly the set of unique activities of the log
(zero back-fill for activities never detected as cyclic), and every
activity that is never repeated within any single case has count 0. -/
theorem cycle_node_counts_keys_and_zero (rows : List Row) (cl : Option ℕ) :
    (∀ e, (lookupK (nodeCycleCounts rows cl) e).isSome = true ↔
      e ∈ uniqueActivities rows) ∧
    (∀ e, e ∈ uniqueActivities rows →
      (∀ ch ∈ chains rows, ch.count e ≤ 1) →
      lookupK (nodeCycleCounts rows cl) e = some 0) := by
  have hkey : ∀ e, (lookupK (cyclicNodesCounter rows cl) e).isSome = true →
      e ∈ uniqueActivities rows := by
    intro e h
    rw [cyclicNodesCounter_eq_foldBump, lookupK_foldBump] at h
    by_cases hc : e ∈ ((chains rows).flatMap (doubles cl)).map Prod.fst
    · rw [List.map_flatMap] at hc
      obtain ⟨ch, hch, hech⟩ := List.mem_flatMap.mp hc
      exact mem_of_mem_chains rows ch e hch ((mem_doubles_keys cl ch e).mp hech).1
    · rw [if_neg (by simp [lookupK, hc])] at h
      exact Option.noConfusion (Option.isSome_iff_exists.mp h).choose_spec
  constructor
  · intro e
    rw [nodeCycleCounts, lookupK_backfill]
    cases h : lookupK (cyclicNodesCounter rows cl) e with
    | some v =>
      simp only [Option.isSome_some, true_iff]
      exact hkey e (by rw [h]; rfl)
    | none =>
      by_cases hu : e ∈ uniqueActivities rows <;> simp [hu]
  · intro e hu hnorep
    have hnone : lookupK (cyclicNodesCounter rows cl) e = none := by
      rw [cyclicNodesCounter_eq_foldBump, lookupK_foldBump]
      rw [if_neg]
      intro hcontra
      rcases hcontra with h | h
      · simp [lookupK] at h
      · rw [List.map_flatMap] at h
        obtain ⟨ch, hch, hech⟩ := List.mem_flatMap.mp h
        obtain ⟨-, hcyc⟩ := (mem_doubles_keys cl ch e).mp hech
        unfold isCyclicIn at hcyc
        have h1 := (Bool.and_eq_true _ _).mp hcyc |>.1
        rw [decide_eq_true_eq] at h1
        exact absurd h1 (Nat.not_lt.mpr (hnorep ch hch))
    rw [nodeCycleCounts, lookupK_backfill, hnone]
    rw [if_pos hu]

/-- Witness for C4 at the concrete log `exLog4`: activity b is a key and is
never repeated within a case, so its count is backfilled to 0. -/
theorem cycle_node_counts_keys_and_zero_witness :
    ((lookupK (nodeCycleCounts exLog4 none) "b").isSome = true ↔
      "b" ∈ uniqueActivities exLog4) ∧
    ("b" ∈ uniqueActivities exLog4 ∧
      lookupK (nodeCycleCounts exLog4 none) "b" = some 0) :=
  ⟨(cycle_node_counts_keys_and_zero exLog4 none).1 "b",
   by decide,
   (cycle_node_counts_keys_and_zero exLog4 none).2 "b" (by decide) (by decide)⟩

theorem lookupK_const_zero (keys : List (String × Option String))
    (j : String × Option String) :
    lookupK (keys.map (fun k => (k, 0))) j = if j ∈ keys then some 0 else none := by
  induction keys with
  | nil => simp [lookupK]
  | cons a rest ih =>
    by_cases h : a = j
    · subst h
      simp [lookupK, List.mem_cons]
    · have h2 : ¬ (j = a) := fun he => h he.symm
      simp [lookupK, h, h2, ih, List.mem_cons]

theorem wsum_incs_some (ps : List (String × String)) (a b : String) :
    wsum (ps.map (fun p => ((p.1, some p.2), 1))) (a, some b) = ps.count (a, b) := by
  induction ps with
  | nil => rfl
  | cons p rest ih =>
    obtain ⟨x, y⟩ := p
    simp only [List.map_cons, wsum, ih, List.count_cons, beq_iff_eq]
    by_cases h : (x, y) = (a, b)
    · rw [Prod.mk.injEq] at h
      obtain ⟨rfl, rfl⟩ := h
      rw [if_pos rfl, if_pos rfl]
      omega
    · have h2 : ¬ ((x, some y) = (a, some b)) := by
        intro he
        rw [Prod.mk.injEq, Option.some.injEq] at he
        exact h (by rw [Prod.mk.injEq]; exact he)
      rw [if_neg h2, if_neg h]
      omega

theorem wsum_incs_none (ps : List (String × String)) (a : String) :
    wsum (ps.map (fun p => ((p.1, some p.2), 1))) (a, none) = 0 ∧
    (a, (none : Option String)) ∉
      ((ps.map (fun p => ((p.1, some p.2), 1))).map Prod.fst) := by
  induction ps with
  | nil => exact ⟨rfl, by simp⟩
  | cons p rest ih =>
    obtain ⟨x, y⟩ := p
    constructor
    · simp only [List.map_cons, wsum]
      rw [if_neg (by simp), ih.1]
    · simp only [List.map_cons, List.mem_cons]
      rintro (h | h)
      · rw [Prod.mk.injEq] at h
        exact Option.noConfusion h.2
      · exact ih.2 h

/-- Counterexample to C5 as stated: in `exLog5` no ordered pair of
activities is ever observed consecutively within a case (the within-case
adjacency relation is empty), yet the edge-cycle-count map contains the
cross-case key (A, B) initialized to 0, because lines 60-61 of
`_cycle_metric.py` shift the activity column without grouping by case. -/
theorem cycle_edge_keys_counterexample :
    lookupK (edgeCycleCounts exLog5 none) ("A", some "B") = some 0 ∧
    dist1Pairs exLog5 = [] := by
  decide

/-- C5 amended: the edge-cycle-count map of `CycleMetric.find` is keyed by
the consecutive ROW pairs of the whole log table, ignoring case
boundaries — including one key pairing the last activity with a missing
value — together with any cyclic-transition pair first seen during
incrementing; the row-shift keys start at 0; for every cyclic activity of
a case, each occurrence index after the first increments the count of the
transition (sequence\[i-1\], sequence\[i\]), and an absent key is
initialized to 1 on its first increment rather than failing (so every
incremented key holds exactly its number of increments). -/
theorem cycle_edge_map_amended (rows : List Row) (cl : Option ℕ) :
    (∀ k, (lookupK (edgeCycleCounts rows cl) k).isSome = true ↔
      (k ∈ initEdgeKeys rows ∨ ∃ p ∈ incPairs rows cl, k = (p.1, some p.2))) ∧
    (∀ a b, ((a, some b) ∈ initEdgeKeys rows ∨ (a, b) ∈ incPairs rows cl) →
      lookupK (edgeCycleCounts rows cl) (a, some b) =
        some ((incPairs rows cl).count (a, b))) ∧
    (∀ a, lookupK (edgeCycleCounts rows cl) (a, (none : Option String)) =
      if (a, (none : Option String)) ∈ initEdgeKeys rows then some 0 else none) := by
  have hm0 : ∀ k, lookupK ((initEdgeKeys rows).map (fun k => (k, 0))) k =
      if k ∈ initEdgeKeys rows then some 0 else none :=
    lookupK_const_zero (initEdgeKeys rows)
  have hkeys : ((incPairs rows cl).map (fun p => ((p.1, some p.2), 1))).map Prod.fst =
      (incPairs rows cl).map (fun p => (p.1, some p.2)) := by
    rw [List.map_map]
    rfl
  refine ⟨?_, ?_, ?_⟩
  · intro k
    rw [edgeCycleCounts, lookupK_foldBump, hkeys]
    by_cases hc : (lookupK ((initEdgeKeys rows).map (fun k => (k, 0))) k).isSome = true ∨
        k ∈ (incPairs rows cl).map (fun p => (p.1, some p.2))
    · rw [if_pos hc]
      simp only [Option.isSome_some, true_iff]
      rcases hc with hc | hc
      · rw [hm0 k] at hc
        by_cases hk : k ∈ initEdgeKeys rows
        · exact Or.inl hk
        · rw [if_neg hk] at hc
          exact Option.noConfusion (Option.isSome_iff_exists.mp hc).choose_spec
      · obtain ⟨p, hp, hpk⟩ := List.mem_map.mp hc
        exact Or.inr ⟨p, hp, hpk.symm⟩
    · rw [if_neg hc]
      simp only [Option.isSome_none, Bool.false_eq_true, false_iff]
      rintro (hk | ⟨p, hp, rfl⟩)
      · exact hc (Or.inl (by rw [hm0 k, if_pos hk]; rfl))
      · exact hc (Or.inr (List.mem_map.mpr ⟨p, hp, rfl⟩))
  · intro a b hab
    rw [edgeCycleCounts, lookupK_foldBump, hkeys]
    have hcond : (lookupK ((initEdgeKeys rows).map (fun k => (k, 0)))
        (a, some b)).isSome = true ∨
        (a, some b) ∈ (incPairs rows cl).map (fun p => (p.1, some p.2)) := by
      rcases hab with h | h
      · exact Or.inl (by rw [hm0 _, if_pos h]; rfl)
      · exact Or.inr (List.mem_map.mpr ⟨(a, b), h, rfl⟩)
    rw [if_pos hcond, wsum_incs_some]
    have hgd : (lookupK ((initEdgeKeys rows).map (fun k => (k, 0)))
        (a, some b)).getD 0 = 0 := by
      rw [hm0 _]
      by_cases h : (a, some b) ∈ initEdgeKeys rows <;> simp [h]
    rw [hgd, Nat.zero_add]
  · intro a
    rw [edgeCycleCounts, lookupK_foldBump, hkeys, (wsum_incs_none (incPairs rows cl) a).1]
    have hnot : (a, (none : Option String)) ∉
        (incPairs rows cl).map (fun p => (p.1, some p.2)) := by
      rw [← hkeys]
      exact (wsum_incs_none (incPairs rows cl) a).2
    by_cases h : (a, (none : Option String)) ∈ initEdgeKeys rows
    · rw [if_pos (Or.inl (by rw [hm0 _, if_pos h]; rfl)), hm0 _, if_pos h]
      rfl
    · rw [if_neg, if_neg h]
      rintro (hs | hmem)
      · rw [hm0 _, if_neg h] at hs
        exact Option.noConfusion (Option.isSome_iff_exists.mp hs).choose_spec
      · exact hnot hmem

/-- Witness for the amended C5 at the concrete log `exLog4`: the cyclic
transition (b,a) of case 1 is counted once. -/
theorem cycle_edge_map_amended_witness :
    (("b", "a") ∈ incPairs exLog4 none) ∧
    lookupK (edgeCycleCounts exLog4 none) ("b", some "a") =
      some ((incPairs exLog4 none).count ("b", "a")) :=
  ⟨by decide, (cycle_edge_map_amended exLog4 none).2.1 "b" "a" (Or.inr (by decide))⟩

theorem convert_sum (xs : List ℚ) (u : ℚ) : (convert xs u).sum = xs.sum / u := by
  unfold convert
  induction xs with
  | nil => simp
  | cons x rest ih => simp [ih, add_div]

theorem convert_length (xs : List ℚ) (u : ℚ) : (convert xs u).length = xs.length := by
  simp [convert]

theorem min_div_pos (a b u : ℚ) (hu : 0 < u) : min (a / u) (b / u) = min a b / u := by
  rcases le_total a b with h | h
  · rw [min_eq_left h, min_eq_left ((div_le_div_iff_of_pos_right hu).mpr h)]
  · rw [min_eq_right h, min_eq_right ((div_le_div_iff_of_pos_right hu).mpr h)]

theorem max_div_pos (a b u : ℚ) (hu : 0 < u) : max (a / u) (b / u) = max a b / u := by
  rcases le_total a b with h | h
  · rw [max_eq_right h, max_eq_right ((div_le_div_iff_of_pos_right hu).mpr h)]
  · rw [max_eq_left h, max_eq_left ((div_le_div_iff_of_pos_right hu).mpr h)]

theorem convert_listMin (xs : List ℚ) (u : ℚ) (hu : 0 < u) :
    listMin (convert xs u) = listMin xs / u := by
  cases xs with
  | nil => simp [listMin, convert]
  | cons x rest =>
    show (convert rest u).foldl min (x / u) = (rest.foldl min x) / u
    induction rest generalizing x with
    | nil => rfl
    | cons y t ih =>
      show (convert t u).foldl min (min (x / u) (y / u)) = (t.foldl min (min x y)) / u
      rw [min_div_pos x y u hu]
      exact ih (min x y)

theorem convert_listMax (xs : List ℚ) (u : ℚ) (hu : 0 < u) :
    listMax (convert xs u) = listMax xs / u := by
  cases xs with
  | nil => simp [listMax, convert]
  | cons x rest =>
    show (convert rest u).foldl max (x / u) = (rest.foldl max x) / u
    induction rest generalizing x with
    | nil => rfl
    | cons y t ih =>
      show (convert t u).foldl max (max (x / u) (y / u)) = (t.foldl max (max x y)) / u
      rw [max_div_pos x y u hu]
      exact ih (max x y)

theorem convert_listMean (xs : List ℚ) (u : ℚ) :
    listMean (convert xs u) = listMean xs / u := by
  unfold listMean
  rw [convert_sum, convert_length, div_right_comm]

theorem insertionSort_convert (xs : List ℚ) (u : ℚ) (hu : 0 < u) :
    List.insertionSort (· ≤ ·) (convert xs u) =
      convert (List.insertionSort (· ≤ ·) xs) u := by
  have hperm : List.Perm (List.insertionSort (· ≤ ·) (convert xs u))
      (convert (List.insertionSort (· ≤ ·) xs) u) :=
    (List.perm_insertionSort _ _).trans
      (((List.perm_insertionSort (· ≤ ·) xs).map _).symm)
  have hs1 : List.Sorted (· ≤ ·) (List.insertionSort (· ≤ ·) (convert xs u)) :=
    List.sorted_insertionSort _ _
  have hs2 : List.Sorted (· ≤ ·) (convert (List.insertionSort (· ≤ ·) xs) u) :=
    List.Pairwise.map _
      (fun a b hab => (div_le_div_iff_of_pos_right hu).mpr hab)
      (List.sorted_insertionSort (· ≤ ·) xs)
  exact List.eq_of_perm_of_sorted hperm hs1 hs2

theorem convert_getD (s : List ℚ) (u : ℚ) (i : ℕ) :
    (convert s u).getD i 0 = s.getD i 0 / u := by
  unfold convert
  induction s generalizing i with
  | nil => simp
  | cons x rest ih =>
    cases i with
    | zero => simp
    | succ n => simpa using ih n

theorem convert_listMedian (xs : List ℚ) (u : ℚ) (hu : 0 < u) :
    listMedian (convert xs u) = listMedian xs / u := by
  unfold listMedian
  rw [insertionSort_convert xs u hu, convert_length]
  by_cases hpar : (List.insertionSort (· ≤ ·) xs).length % 2 = 1
  · rw [if_pos hpar, if_pos hpar, convert_getD]
  · rw [if_neg hpar, if_neg hpar, convert_getD, convert_getD, div_add_div_same,
      div_right_comm]

theorem convert_popVar (xs : List ℚ) (u : ℚ) (hu : 0 < u) :
    popVar (convert xs u) = popVar xs / u ^ 2 := by
  unfold popVar
  rw [convert_listMean, convert_length]
  have hmap : (convert xs u).map (fun x => (x - listMean xs / u) ^ 2) =
      (xs.map (fun x => (x - listMean xs) ^ 2)).map (fun y => y / u ^ 2) := by
    unfold convert
    rw [List.map_map, List.map_map]
    apply List.map_congr_left
    intro x _
    show (x / u - listMean xs / u) ^ 2 = (x - listMean xs) ^ 2 / u ^ 2
    rw [div_sub_div_same, div_pow]
  rw [hmap]
  have hsum : ((xs.map (fun x => (x - listMean xs) ^ 2)).map (fun y => y / u ^ 2)).sum =
      (xs.map (fun x => (x - listMean xs) ^ 2)).sum / u ^ 2 :=
    convert_sum (xs.map (fun x => (x - listMean xs) ^ 2)) (u ^ 2)
  rw [hsum, div_right_comm]

theorem popVar_nonneg (xs : List ℚ) : 0 ≤ popVar xs := by
  unfold popVar
  apply div_nonneg
  · apply List.sum_nonneg
    intro a ha
    obtain ⟨x, -, rfl⟩ := List.mem_map.mp ha
    positivity
  · positivity

/-- Counterexample to C7 as stated: on the two-value group of 0 and 120
seconds with the minute unit (factor 60), the code's variance is the
population variance in seconds divided once by 60, which differs from the
population variance of the converted values. -/
theorem duration_variance_counterexample :
    varianceBy [0, 120] 60 ≠ popVar (convert [0, 120] 60) := by
  norm_num [varianceBy, popVar, convert, listMean]

/-- C7 amended: with the unit factors second 1, minute 60, hour 3600, day
86400, week 604800, every duration statistic except variance (total, min,
max, mean, median, and population std) equals the corresponding statistic
of the values converted from seconds by dividing by the unit factor, with
population (ddof = 0) semantics for variance and std; the variance metric
instead equals the unit factor times the population variance of the
converted values (the code divides the seconds-variance once by the
factor, not twice). -/
theorem duration_stats_amended (xs : List ℚ) (u : ℚ) (hx : xs ≠ []) (hu : 0 < u) :
    sumBy xs u = (convert xs u).sum ∧
    minBy xs u = listMin (convert xs u) ∧
    maxBy xs u = listMax (convert xs u) ∧
    meanBy xs u = listMean (convert xs u) ∧
    medianBy xs u = listMedian (convert xs u) ∧
    varianceBy xs u = u * popVar (convert xs u) ∧
    Real.sqrt (popVar xs) / (u : ℝ) = Real.sqrt (popVar (convert xs u)) ∧
    parseTimeUnit "second" = .ok 1 ∧ parseTimeUnit "minute" = .ok 60 ∧
    parseTimeUnit "hour" = .ok 3600 ∧ parseTimeUnit "day" = .ok 86400 ∧
    parseTimeUnit "week" = .ok 604800 := by
  have hu0 : u ≠ 0 := ne_of_gt hu
  refine ⟨(convert_sum xs u).symm, (convert_listMin xs u hu).symm,
    (convert_listMax xs u hu).symm, (convert_listMean xs u).symm,
    (convert_listMedian xs u hu).symm, ?_, ?_, ?_, ?_, ?_, ?_, ?_⟩
  · rw [convert_popVar xs u hu]
    unfold varianceBy
    field_simp
    ring
  · rw [convert_popVar xs u hu]
    push_cast
    rw [Real.sqrt_div (by exact_mod_cast popVar_nonneg xs) (((u : ℝ)) ^ 2),
      Real.sqrt_sq (by positivity)]
  · rfl
  · rfl
  · rfl
  · rfl
  · rfl

/-- Witness for the amended C7 at the group of 0 and 120 seconds with the
minute unit. -/
theorem duration_stats_amended_witness :
    (([0, 120] : List ℚ) ≠ [] ∧ (0 : ℚ) < 60) ∧
    (sumBy [0, 120] 60 = (convert [0, 120] 60).sum ∧
    minBy [0, 120] 60 = listMin (convert [0, 120] 60) ∧
    maxBy [0, 120] 60 = listMax (convert [0, 120] 60) ∧
    meanBy [0, 120] 60 = listMean (convert [0, 120] 60) ∧
    medianBy [0, 120] 60 = listMedian (convert [0, 120] 60) ∧
    varianceBy [0, 120] 60 = 60 * popVar (convert [0, 120] 60) ∧
    Real.sqrt (popVar [0, 120]) / ((60 : ℚ) : ℝ) =
      Real.sqrt (popVar (convert [0, 120] 60)) ∧
    parseTimeUnit "second" = .ok 1 ∧ parseTimeUnit "minute" = .ok 60 ∧
    parseTimeUnit "hour" = .ok 3600 ∧ parseTimeUnit "day" = .ok 86400 ∧
    parseTimeUnit "week" = .ok 604800) :=
  ⟨⟨by simp, by norm_num⟩, duration_stats_amended [0, 120] 60 (by simp) (by norm_num)⟩

/-- C9: constructing a per-dimension metric object fails when the log has
no duration column and neither timestamp column is set (duration cannot
be derived); when at least one timestamp column is set, construction
derives the duration column instead of failing (and succeeds outright for
any accepted time unit). -/
theorem metric_init_duration (h : DHolder) (tu : String) (hd : h.durCol = none) :
    (h.startCol = none → h.endCol = none → ∀ res, baseMetricInit h tu ≠ .ok res) ∧
    ((h.startCol ≠ none ∨ h.endCol ≠ none) →
      ∃ d, checkOrCalcDuration h = .ok d ∧ d.durCol ≠ none) ∧
    ((h.startCol ≠ none ∨ h.endCol ≠ none) → ∀ u, parseTimeUnit tu = .ok u →
      ∃ d, baseMetricInit h tu = .ok (d, u) ∧ d.durCol ≠ none) := by
  have hderive : (h.startCol ≠ none ∨ h.endCol ≠ none) →
      ∃ d, checkOrCalcDuration h = .ok d ∧ d.durCol ≠ none := by
    intro hor
    cases hs : h.startCol with
    | some s =>
      cases he : h.endCol with
      | none =>
        refine ⟨{ h with durCol := some (durFromStart (h.ids.zip s)) }, ?_, by simp⟩
        unfold checkOrCalcDuration
        rw [hd, hs, he]
      | some e =>
        refine ⟨{ h with durCol := some ((s.zip e).map (fun p => some (p.2 - p.1))) },
          ?_, by simp⟩
        unfold checkOrCalcDuration
        rw [hd, hs, he]
    | none =>
      cases he : h.endCol with
      | none =>
        rw [hs, he] at hor
        rcases hor with hc | hc <;> exact absurd rfl hc
      | some e =>
        refine ⟨{ h with durCol := some (durFromEnd (h.ids.zip e)) }, ?_, by simp⟩
        unfold checkOrCalcDuration
        rw [hd, hs, he]
  refine ⟨?_, hderive, ?_⟩
  · intro hs he res hcontra
    unfold baseMetricInit checkOrCalcDuration at hcontra
    rw [hd, hs, he] at hcontra
    exact Except.noConfusion hcontra
  · intro hor u hu
    obtain ⟨d, hck, hdur⟩ := hderive hor
    refine ⟨d, ?_, hdur⟩
    unfold baseMetricInit
    rw [hck, hu]

/-- Witness for C9 at a one-row holder with only a start-timestamp column
and the day time unit. -/
theorem metric_init_duration_witness :
    ((some [(5 : ℚ)] ≠ (none : Option (List ℚ)) ∨
      (none : Option (List ℚ)) ≠ (none : Option (List ℚ))) ∧
     parseTimeUnit "day" = .ok 86400) ∧
    ∃ d, baseMetricInit ⟨["1"], some [(5 : ℚ)], none, none⟩ "day" = .ok (d, 86400) ∧
      d.durCol ≠ none :=
  ⟨⟨Or.inl (by simp), rfl⟩,
   (metric_init_duration ⟨["1"], some [(5 : ℚ)], none, none⟩ "day" rfl).2.2
     (Or.inl (by simp)) 86400 rfl⟩

/-- C8: for every metric object, a second `apply` with unchanged
parameters does not recompute the metrics: starting from a fresh instance,
the underlying table is computed exactly once across two calls, the second
call leaves the state unchanged, and the second result equals the first
(the identical cached object for the directly-cached classes; deep
equality via the deterministic transformation for TransitionMetric). -/
theorem metric_apply_idempotent {T R : Type} (compute : Unit → T) (transform : T → R) :
    ((applyCached compute ((applyCached compute (initCache T)).2)).1 =
        (applyCached compute (initCache T)).1 ∧
      (applyCached compute ((applyCached compute (initCache T)).2)).2 =
        (applyCached compute (initCache T)).2 ∧
      ((applyCached compute ((applyCached compute (initCache T)).2)).2).computeCount = 1) ∧
    ((applyTransformed compute transform
          ((applyTransformed compute transform (initCache T)).2)).1 =
        (applyTransformed compute transform (initCache T)).1 ∧
      (applyTransformed compute transform
          ((applyTransformed compute transform (initCache T)).2)).2 =
        (applyTransformed compute transform (initCache T)).2 ∧
      ((applyTransformed compute transform
          ((applyTransformed compute transform (initCache T)).2)).2).computeCount = 1) :=
  ⟨⟨rfl, rfl, rfl⟩, ⟨rfl, rfl, rfl⟩⟩

/-- Counterexample to C10 as stated: for the genuine DataHolder with no
duration column and no timestamp columns, `AutoInsights.__init__` does not
succeed — the ActivityMetric it constructs raises RuntimeError while
deriving the duration. -/
theorem auto_insights_init_counterexample :
    autoInsightsInit (.holder ⟨["1"], none, none, none⟩) "hour" =
      .error "RuntimeError: Cannot calculate time difference" := by
  rfl

/-- C10 amended: a non-DataHolder argument raises TypeError and no insight
state is initialized; for a DataHolder argument whose duration column is
present or derivable (at least one timestamp column set) and an accepted
time unit, construction succeeds and both insight tables start as none,
so describe_nodes / describe_edges return no data before apply. -/
theorem auto_insights_init_amended (h : DHolder) (tn tu : String) (u : ℚ) :
    (∀ res, autoInsightsInit (.other tn) tu ≠ .ok res) ∧
    ((h.durCol ≠ none ∨ h.startCol ≠ none ∨ h.endCol ≠ none) →
      parseTimeUnit tu = .ok u →
      autoInsightsInit (.holder h) tu = .ok ⟨none, none⟩) := by
  constructor
  · intro res hcontra
    exact Except.noConfusion hcontra
  · intro hok hu
    have hck : ∃ d, checkOrCalcDuration h = .ok d ∧ d.durCol ≠ none := by
      cases hdur : h.durCol with
      | some ds => exact ⟨h, by unfold checkOrCalcDuration; rw [hdur], by rw [hdur]; simp⟩
      | none =>
        rcases hok with hc | hc
        · exact absurd hdur hc
        · exact (metric_init_duration h tu hdur).2.1 hc
    obtain ⟨d, hck, hdur⟩ := hck
    have hbase : baseMetricInit h tu = .ok (d, u) := by
      unfold baseMetricInit
      rw [hck, hu]
    have hck₂ : checkOrCalcDuration d = .ok d := by
      unfold checkOrCalcDuration
      cases hd2 : d.durCol with
      | some ds => rfl
      | none => exact absurd hd2 hdur
    have hbase₂ : baseMetricInit d tu = .ok (d, u) := by
      unfold baseMetricInit
      rw [hck₂, hu]
    unfold autoInsightsInit
    simp only [hbase, hbase₂]

/-- Witness for the amended C10 at a holder with a duration column already
present and the default hour unit. -/
theorem auto_insights_init_amended_witness :
    ((some [some (7 : ℚ)] ≠ (none : Option (List (Option ℚ))) ∨
      (none : Option (List ℚ)) ≠ (none : Option (List ℚ)) ∨
      (none : Option (List ℚ)) ≠ (none : Option (List ℚ))) ∧
     parseTimeUnit "hour" = .ok 3600) ∧
    autoInsightsInit (.holder ⟨["1"], none, none, some [some (7 : ℚ)]⟩) "hour" =
      .ok ⟨none, none⟩ :=
  ⟨⟨Or.inl (by simp), rfl⟩,
   (auto_insights_init_amended ⟨["1"], none, none, some [some (7 : ℚ)]⟩ "x" "hour"
     3600).2 (Or.inl (by simp)) rfl⟩

theorem insightByQuantile_cases (x a b : ℚ) :
    insightByQuantile x a b = -1 ∨ insightByQuantile x a b = 0 ∨
      insightByQuantile x a b = 1 := by
  unfold insightByQuantile
  split
  · exact Or.inl rfl
  · split
    · exact Or.inr (Or.inr rfl)
    · exact Or.inr (Or.inl rfl)

/-- C6: in the insight classification, the per-column sign of every row is
-1 when the value is strictly below the q_min quantile of the column, +1
when strictly above the q_top quantile, 0 otherwise; the row's overall
`insights` value is the sign of the sum of its per-column signs (positive
sum 1, negative -1, zero 0); and every value of the insight table is one of -1, 0 and +1. -/
theorem insight_classification (t : StatsTable) (qMin qTop : ℚ)
    (r : String × List ℚ) (hr : r ∈ t.rows) (j : ℕ) (hj : j < r.2.length) :
    ((insightRow t qMin qTop r.2).getD j 0 =
      (if r.2.getD j 0 < quantile (colVals t j) qMin then -1
       else if quantile (colVals t j) qTop < r.2.getD j 0 then 1 else 0)) ∧
    (r.1, insightRow t qMin qTop r.2, signZ (insightRow t qMin qTop r.2).sum) ∈
      getInsight t qMin qTop ∧
    (∀ v ∈ insightRow t qMin qTop r.2, v = -1 ∨ v = 0 ∨ v = 1) ∧
    (signZ (insightRow t qMin qTop r.2).sum = -1 ∨
      signZ (insightRow t qMin qTop r.2).sum = 0 ∨
      signZ (insightRow t qMin qTop r.2).sum = 1) ∧
    (0 < (insightRow t qMin qTop r.2).sum →
      signZ (insightRow t qMin qTop r.2).sum = 1) ∧
    ((insightRow t qMin qTop r.2).sum < 0 →
      signZ (insightRow t qMin qTop r.2).sum = -1) ∧
    ((insightRow t qMin qTop r.2).sum = 0 →
      signZ (insightRow t qMin qTop r.2).sum = 0) := by
  refine ⟨?_, ?_, ?_, ?_, ?_, ?_, ?_⟩
  · have hb : j < ((List.range r.2.length).map (fun j =>
        insightByQuantile (r.2.getD j 0) (quantile (colVals t j) qMin)
          (quantile (colVals t j) qTop))).length := by
      simpa using hj
    unfold insightRow
    rw [List.getD_eq_getElem _ _ hb, List.getElem_map, List.getElem_range]
    rfl
  · exact List.mem_map.mpr ⟨r, hr, rfl⟩
  · intro v hv
    unfold insightRow at hv
    obtain ⟨i, -, rfl⟩ := List.mem_map.mp hv
    exact insightByQuantile_cases _ _ _
  · unfold signZ
    split
    · exact Or.inr (Or.inr rfl)
    · split
      · exact Or.inl rfl
      · exact Or.inr (Or.inl rfl)
  · intro hpos
    unfold signZ
    rw [if_pos hpos]
  · intro hneg
    unfold signZ
    rw [if_neg (by omega), if_pos hneg]
  · intro hzero
    unfold signZ
    rw [if_neg (by omega), if_neg (by omega)]

/-- Witness for C6 at the concrete table `exStats`. -/
theorem insight_classification_witness :
    (("n1", [(1 : ℚ)]) ∈ exStats.rows ∧ 0 < [(1 : ℚ)].length) ∧
    ("n1", insightRow exStats (1 / 10) (85 / 100) [(1 : ℚ)],
      signZ (insightRow exStats (1 / 10) (85 / 100) [(1 : ℚ)]).sum) ∈
      getInsight exStats (1 / 10) (85 / 100) :=
  ⟨⟨by simp [exStats], by decide⟩,
   (insight_classification exStats (1 / 10) (85 / 100) ("n1", [1])
     (by simp [exStats]) 0 (by decide)).2.1⟩

end SberPM
